import Mathlib

/-!
Shallow embedding of the Luigs & Neumann SM-10 serial driver
(`LandNSM10.py`): the frame codec (`send_command`'s hex-string
construction and `binascii.unhexlify`), the float byte converter
`float_to_dec_bytes`, and the operations `position_inquiry` and
`approach_position` built on them.

Byte strings are `List Nat`; hex strings are lists of hex-digit values
(each intended `< 16`).  The serial port is a pair of byte lists: the
bytes written so far and the bytes the device will supply to reads.
Python exceptions that the code can raise are an explicit inductive.
-/

namespace SM10

/-- A serial port: `written` is everything sent so far, `pending` the
bytes the device has made available for reading. -/
structure SerialPort where
  written : List Nat
  pending : List Nat
deriving DecidableEq, Repr

/-- `pyserial` `read(n)`: returns up to `n` bytes (fewer when the device
supplies fewer before the timeout), consuming them. -/
def serRead (s : SerialPort) (n : Nat) : List Nat × SerialPort :=
  (s.pending.take n, ⟨s.written, s.pending.drop n⟩)

/-- `write(bs)` appends the bytes to the port's output. -/
def serWrite (s : SerialPort) (bs : List Nat) : SerialPort :=
  ⟨s.written ++ bs, s.pending⟩

/-- Python exceptions the embedded code can raise. -/
inductive PyExn where
  /-- `binascii.Error` from `unhexlify` (odd-length string). -/
  | binasciiError
  /-- `AttributeError`: method call on `None` (e.g. `self.ser.write`). -/
  | attributeError
  /-- `TypeError`: subscripting `None` (e.g. `ans[4:8]` when `ans is None`). -/
  | typeError
  /-- `struct.error`: `struct.unpack('f', b)` with `len(b) != 4`. -/
  | structError
deriving DecidableEq, Repr

/-- Outcome of `send_command`: the Python `return None` path, a raised
exception, or the reply bytes. -/
inductive SendResult where
  | retNone
  | raised (e : PyExn)
  | ans (bytes : List Nat)
deriving DecidableEq, Repr

/-- Little-endian hex digits of `v` (empty for 0), with structural fuel
so the definition reduces in the kernel; `hexStr` adds the `'0'` that
Python's `'%x' % 0` produces. -/
def hexDigitsRevFuel : Nat → Nat → List Nat
  | 0, _ => []
  | fuel + 1, v => if v = 0 then [] else v % 16 :: hexDigitsRevFuel fuel (v / 16)

/-- Python `'%x' % v` for `v ≥ 0`, as a list of hex-digit values. -/
def hexStr (v : Nat) : List Nat :=
  if v = 0 then [0] else (hexDigitsRevFuel v v).reverse

/-- Python `'%02x' % v` for `v ≥ 0`: `hexStr v` zero-padded on the left
to width at least 2.  For `v > 255` this is longer than 2 digits. -/
def fmt02x (v : Nat) : List Nat :=
  let ds := hexStr v
  if ds.length < 2 then List.replicate (2 - ds.length) 0 ++ ds else ds

/-- Pair up hex digits into bytes: `[d1, d2, ...] ↦ [16*d1 + d2, ...]`. -/
def pairUp : List Nat → List Nat
  | d1 :: d2 :: rest => (16 * d1 + d2) :: pairUp rest
  | _ => []

/-- `binascii.unhexlify`: fails on an odd-length string or a non-hex
character (a digit value `≥ 16` in this embedding). -/
def pyUnhexlify (ds : List Nat) : Option (List Nat) :=
  if ds.length % 2 = 0 ∧ ds.all (· < 16) then some (pairUp ds) else none

/-- `SYN = '16'` as hex digits. -/
def SYNdigits : List Nat := [1, 6]

/-- The hex string `char_command` built by `send_command` (lines
161–175): `SYN + cmd_id + '%02x' % n_bytes`, then `'%02x'` of each
element of `var_bytes`, then the always-zero CRC `'0000'`. -/
def frameDigits (cmd_id : List Nat) (n_bytes : Nat) (var_bytes : List Nat) : List Nat :=
  SYNdigits ++ cmd_id ++ fmt02x n_bytes ++ var_bytes.flatMap fmt02x ++ [0, 0, 0, 0]

/-- `send_command(cmd_id, n_bytes, var_bytes, n_ret_bytes)` (lines
149–195).  If `n_bytes != len(var_bytes)` it returns `None` before
touching the port.  Otherwise it builds the hex command, unhexlifies it
(raising `binascii.Error` on an odd-length string), writes the binary
frame (`AttributeError` if the port is `None`), sleeps, and reads
`n_ret_bytes` bytes, returning however many arrived. -/
def send_command (ser : Option SerialPort) (cmd_id : List Nat) (n_bytes : Nat)
    (var_bytes : List Nat) (n_ret_bytes : Nat) : SendResult × Option SerialPort :=
  if n_bytes ≠ var_bytes.length then
    (.retNone, ser)
  else
    match pyUnhexlify (frameDigits cmd_id n_bytes var_bytes) with
    | none => (.raised .binasciiError, ser)
    | some bin_command =>
      match ser with
      | none => (.raised .attributeError, none)
      | some s =>
        let s := serWrite s bin_command
        let (ans, s) := serRead s n_ret_bytes
        (.ans ans, some s)

/-- An IEEE-754 single-precision value, represented by its 32-bit
pattern (intended `< 2^32`).  The driver never does float arithmetic
beyond negation, so the bit pattern is the faithful representation. -/
structure Float32 where
  bits : Nat
deriving DecidableEq, Repr

/-- Python unary minus on a float flips the IEEE-754 sign bit; packing
the (exactly representable) negation to single precision flips the sign
bit of the pattern. -/
def Float32.neg (v : Float32) : Float32 :=
  if v.bits < 2 ^ 31 then ⟨v.bits + 2 ^ 31⟩ else ⟨v.bits - 2 ^ 31⟩

/-- `struct.pack('>f', v)`: the four big-endian bytes of the bit
pattern. -/
def pack_be_f (v : Float32) : List Nat :=
  [v.bits / 2 ^ 24 % 256, v.bits / 2 ^ 16 % 256, v.bits / 2 ^ 8 % 256, v.bits % 256]

/-- `binascii.hexlify`: two hex digits per byte. -/
def hexlify (bs : List Nat) : List Nat :=
  bs.flatMap fun b => [b / 16, b % 16]

/-- `float_to_dec_bytes(number)` (lines 325–340): hexlify the big-endian
pack, then read the four 2-digit groups back to front, so the result is
the big-endian bytes in reversed (LSB-first) order. -/
def float_to_dec_bytes (v : Float32) : List Nat :=
  let hex_rep := hexlify (pack_be_f v)
  [16 * hex_rep.getD 6 0 + hex_rep.getD 7 0,
   16 * hex_rep.getD 4 0 + hex_rep.getD 5 0,
   16 * hex_rep.getD 2 0 + hex_rep.getD 3 0,
   16 * hex_rep.getD 0 0 + hex_rep.getD 1 0]

/-- `struct.unpack('f', bs)`: requires exactly 4 bytes (else
`struct.error`); interprets them as a native little-endian
single-precision pattern. -/
def unpack_f (bs : List Nat) : Option Float32 :=
  match bs with
  | [b0, b1, b2, b3] => some ⟨b0 + 2 ^ 8 * b1 + 2 ^ 16 * b2 + 2 ^ 24 * b3⟩
  | _ => none

/-- Outcome of `position_inquiry`: a raised exception or the decoded
position. -/
inductive PosResult where
  | raised (e : PyExn)
  | pos (v : Float32)
deriving DecidableEq, Repr

/-- `position_inquiry(axis)` (lines 200–224): `send_command('0101', 1,
[axis], 10)`, then `struct.unpack('f', ans[4:8])`.  If `send_command`
returned `None`, `ans[4:8]` raises `TypeError`; if the slice has fewer
than 4 bytes, `unpack` raises `struct.error`. -/
def position_inquiry (ser : Option SerialPort) (axis : Nat) :
    PosResult × Option SerialPort :=
  match send_command ser [0, 1, 0, 1] 1 [axis] 10 with
  | (.retNone, s) => (.raised .typeError, s)
  | (.raised e, s) => (.raised e, s)
  | (.ans ans, s) =>
    match unpack_f ((ans.drop 4).take 4) with
    | none => (.raised .structError, s)
    | some v => (.pos v, s)

/-- The `cmd_id` selection of `approach_position` (lines 238–249), as
hex digits: `'0048'`, `'0049'`, `'004a'`, `'004b'`. -/
def approach_cmd_id (absolute slow : Bool) : List Nat :=
  if absolute && !slow then [0, 0, 4, 8]
  else if absolute && slow then [0, 0, 4, 9]
  else if !absolute && !slow then [0, 0, 4, 10]
  else [0, 0, 4, 11]

/-- `approach_position(axis, position, absolute, slow, reverse)` (lines
228–272): pick the opcode from the 2×2 table, negate `position` when
`reverse`, build `var_bytes = [axis] + float_to_dec_bytes(position)`,
and send with `n_bytes = 5`, `n_ret_bytes = 5`. -/
def approach_position (ser : Option SerialPort) (axis : Nat) (position : Float32)
    (absolute slow reverse : Bool) : SendResult × Option SerialPort :=
  let cmd_id := approach_cmd_id absolute slow
  let position := if reverse then position.neg else position
  let var_bytes := axis :: float_to_dec_bytes position
  send_command ser cmd_id 5 var_bytes 5

/-- The driver object's fields relevant to transactions (`__init__`,
lines 46–103). -/
structure LandNSM10 where
  verbose : Nat
  serial_debug : Bool
  connected : Bool
  ser : Option SerialPort
deriving DecidableEq, Repr

/-- `LandNSM10.__init__` (lines 78–103): whether `serial.Serial(...)`
succeeds is an environment fact, passed as `serialOpens`.  On failure
the object still exists, with `ser = None` and `connected = False`. -/
def init (verbose : Nat) (serial_debug : Bool) (serialOpens : Bool) : LandNSM10 :=
  if serialOpens then ⟨verbose, serial_debug, true, some ⟨[], []⟩⟩
  else ⟨verbose, serial_debug, false, none⟩

/-! Helper lemmas about the hex codec. -/

set_option maxRecDepth 4000 in
theorem fmt02x_of_lt : ∀ v : Nat, v < 256 → fmt02x v = [v / 16, v % 16] := by decide

set_option maxRecDepth 4000 in
theorem fmt02x_digits_lt : ∀ v : Nat, v < 256 → ∀ d ∈ fmt02x v, d < 16 := by decide

theorem pairUp_append : ∀ ds es : List Nat, ds.length % 2 = 0 →
    pairUp (ds ++ es) = pairUp ds ++ pairUp es
  | [], _, _ => rfl
  | [_], _, h => by simp at h
  | d1 :: d2 :: rest, es, h => by
    have hr : rest.length % 2 = 0 := by
      simp only [List.length_cons] at h
      omega
    simp [pairUp, pairUp_append rest es hr]

theorem pairUp_flatMap_fmt02x : ∀ p : List Nat, (∀ b ∈ p, b < 256) →
    pairUp (p.flatMap fmt02x) = p
  | [], _ => rfl
  | b :: rest, h => by
    have hb : b < 256 := h b (List.mem_cons_self b rest)
    have hrest : ∀ x ∈ rest, x < 256 := fun x hx => h x (List.mem_cons_of_mem b hx)
    simp only [List.flatMap_cons, fmt02x_of_lt b hb, List.cons_append, List.nil_append,
      pairUp, pairUp_flatMap_fmt02x rest hrest]
    congr 1
    omega

theorem flatMap_fmt02x_length (p : List Nat) (h : ∀ b ∈ p, b < 256) :
    (p.flatMap fmt02x).length = 2 * p.length := by
  induction p with
  | nil => rfl
  | cons b rest ih =>
    have hb : b < 256 := h b (List.mem_cons_self b rest)
    have hrest : ∀ x ∈ rest, x < 256 := fun x hx => h x (List.mem_cons_of_mem b hx)
    simp only [List.flatMap_cons, List.length_append, fmt02x_of_lt b hb, ih hrest,
      List.length_cons]
    simp
    omega

theorem flatMap_fmt02x_digits_lt (p : List Nat) (h : ∀ b ∈ p, b < 256) :
    ∀ d ∈ p.flatMap fmt02x, d < 16 := by
  intro d hd
  rcases List.mem_flatMap.mp hd with ⟨b, hb, hdb⟩
  exact fmt02x_digits_lt b (h b hb) d hdb

/-- Successful unhexlify of a well-formed frame: four in-range command
digits, an in-range count, in-range parameter bytes. -/
theorem pyUnhexlify_frameDigits (c1 c2 c3 c4 n : Nat) (p : List Nat)
    (h1 : c1 < 16) (h2 : c2 < 16) (h3 : c3 < 16) (h4 : c4 < 16)
    (hn : n < 256) (hp : ∀ b ∈ p, b < 256) :
    pyUnhexlify (frameDigits [c1, c2, c3, c4] n p) =
      some (0x16 :: (16 * c1 + c2) :: (16 * c3 + c4) :: n :: (p ++ [0, 0])) := by
  have hfmt : fmt02x n = [n / 16, n % 16] := fmt02x_of_lt n hn
  have hflen : (p.flatMap fmt02x).length = 2 * p.length := flatMap_fmt02x_length p hp
  have hdig : ∀ d ∈ p.flatMap fmt02x, d < 16 := flatMap_fmt02x_digits_lt p hp
  have hshape : frameDigits [c1, c2, c3, c4] n p =
      (1 :: 6 :: c1 :: c2 :: c3 :: c4 :: n / 16 :: n % 16 :: p.flatMap fmt02x) ++
        [0, 0, 0, 0] := by
    simp [frameDigits, SYNdigits, hfmt]
  have heven : (frameDigits [c1, c2, c3, c4] n p).length % 2 = 0 := by
    rw [hshape]
    simp only [List.length_append, List.length_cons, List.length_nil, hflen]
    omega
  have hall : ∀ d ∈ frameDigits [c1, c2, c3, c4] n p, d < 16 := by
    rw [hshape]
    intro d hd
    rcases List.mem_append.mp hd with hd | hd
    · simp only [List.mem_cons] at hd
      rcases hd with rfl | rfl | rfl | rfl | rfl | rfl | rfl | rfl | hd
      · omega
      · omega
      · omega
      · omega
      · omega
      · omega
      · omega
      · omega
      · exact hdig d hd
    · have hd0 : d = 0 := by simpa using hd
      omega
  have hpair : pairUp (frameDigits [c1, c2, c3, c4] n p) =
      0x16 :: (16 * c1 + c2) :: (16 * c3 + c4) :: n :: (p ++ [0, 0]) := by
    rw [hshape, pairUp_append _ _ (by simp only [List.length_cons, hflen]; omega)]
    simp only [pairUp, pairUp_flatMap_fmt02x p hp]
    have hdm : 16 * (n / 16) + n % 16 = n := by omega
    simp [hdm]
  simp [pyUnhexlify, heven, List.all_eq_true.mpr fun d hd => decide_eq_true (hall d hd), hpair]

/-- A length-matching `send_command` on an open port with a well-formed
command writes exactly the frame and returns the bytes read. -/
theorem send_command_ok (s : SerialPort) (c1 c2 c3 c4 n : Nat) (p : List Nat)
    (n_ret : Nat) (hn : n = p.length) (h1 : c1 < 16) (h2 : c2 < 16) (h3 : c3 < 16)
    (h4 : c4 < 16) (hp : ∀ b ∈ p, b < 256) (hlt : n < 256) :
    send_command (some s) [c1, c2, c3, c4] n p n_ret =
      (.ans (s.pending.take n_ret),
       some ⟨s.written ++ (0x16 :: (16 * c1 + c2) :: (16 * c3 + c4) :: n :: (p ++ [0, 0])),
             s.pending.drop n_ret⟩) := by
  rw [send_command, if_neg (by omega)]
  rw [pyUnhexlify_frameDigits c1 c2 c3 c4 n p h1 h2 h3 h4 hlt hp]
  simp [serWrite, serRead]

theorem float_to_dec_bytes_eq (v : Float32) :
    float_to_dec_bytes v =
      [v.bits % 256, v.bits / 2 ^ 8 % 256, v.bits / 2 ^ 16 % 256, v.bits / 2 ^ 24 % 256] := by
  simp [float_to_dec_bytes, hexlify, pack_be_f, Nat.div_add_mod]

theorem float_to_dec_bytes_lt (v : Float32) : ∀ b ∈ float_to_dec_bytes v, b < 256 := by
  rw [float_to_dec_bytes_eq]
  intro b hb
  simp only [List.mem_cons, List.not_mem_nil, or_false] at hb
  rcases hb with rfl | rfl | rfl | rfl <;> omega

theorem hexDigitsRevFuel_digit_lt : ∀ fuel v d, d ∈ hexDigitsRevFuel fuel v → d < 16
  | 0, v, d, hd => by simp [hexDigitsRevFuel] at hd
  | fuel + 1, v, d, hd => by
    by_cases hv : v = 0
    · simp [hexDigitsRevFuel, hv] at hd
    · simp only [hexDigitsRevFuel, if_neg hv, List.mem_cons] at hd
      rcases hd with rfl | hd
      · omega
      · exact hexDigitsRevFuel_digit_lt fuel (v / 16) d hd

theorem hexDigitsRevFuel_length_ge : ∀ fuel k v, 16 ^ k ≤ v → k + 1 ≤ fuel →
    k + 1 ≤ (hexDigitsRevFuel fuel v).length
  | 0, k, _, _, hf => by omega
  | fuel + 1, 0, v, hv, _ => by
    have h1 : (16 : Nat) ^ 0 = 1 := pow_zero 16
    simp only [hexDigitsRevFuel, if_neg (by omega : ¬v = 0), List.length_cons]
    omega
  | fuel + 1, k + 1, v, hv, hf => by
    have h1 : 1 ≤ (16 : Nat) ^ (k + 1) := Nat.one_le_pow _ _ (by omega)
    have hdiv : 16 ^ k ≤ v / 16 := by
      rw [Nat.le_div_iff_mul_le (by omega)]
      calc 16 ^ k * 16 = 16 ^ (k + 1) := (pow_succ 16 k).symm
        _ ≤ v := hv
    have ih := hexDigitsRevFuel_length_ge fuel k (v / 16) hdiv (by omega)
    simp only [hexDigitsRevFuel, if_neg (by omega : ¬v = 0), List.length_cons]
    omega

theorem hexStr_digit_lt (v : Nat) : ∀ d ∈ hexStr v, d < 16 := by
  intro d hd
  rw [hexStr] at hd
  by_cases hv : v = 0
  · rw [if_pos hv] at hd
    have : d = 0 := by simpa using hd
    omega
  · rw [if_neg hv, List.mem_reverse] at hd
    exact hexDigitsRevFuel_digit_lt v v d hd

theorem hexStr_length_ge3 (v : Nat) (hv : 256 ≤ v) : 3 ≤ (hexStr v).length := by
  rw [hexStr, if_neg (by omega), List.length_reverse]
  exact hexDigitsRevFuel_length_ge v 2 v (by norm_num; omega) (by omega)

theorem fmt02x_of_ge (v : Nat) (hv : 256 ≤ v) : fmt02x v = hexStr v := by
  have h3 := hexStr_length_ge3 v hv
  simp only [fmt02x]
  rw [if_neg (by omega)]

theorem fmt02x_digit_lt_all (v : Nat) : ∀ d ∈ fmt02x v, d < 16 := by
  intro d hd
  simp only [fmt02x] at hd
  by_cases h : (hexStr v).length < 2
  · rw [if_pos h] at hd
    rcases List.mem_append.mp hd with hd | hd
    · have : d = 0 := List.eq_of_mem_replicate hd
      omega
    · exact hexStr_digit_lt v d hd
  · rw [if_neg h] at hd
    exact hexStr_digit_lt v d hd

theorem pairUp_length : ∀ ds : List Nat, (pairUp ds).length = ds.length / 2
  | [] => rfl
  | [_] => by simp [pairUp]
  | d1 :: d2 :: rest => by
    simp only [pairUp, List.length_cons, pairUp_length rest]
    omega

theorem unpack_f_of_length_ne {bs : List Nat} (h : bs.length ≠ 4) : unpack_f bs = none := by
  match bs with
  | [] => rfl
  | [_] => rfl
  | [_, _] => rfl
  | [_, _, _] => rfl
  | [_, _, _, _] => exact absurd rfl h
  | _ :: _ :: _ :: _ :: _ :: _ => rfl

/-! Claim theorems. -/

/-- C1: for a 2-byte command id (four hex digits, each < 16) and
parameter bytes `p` each in 0–255 with declared count `len(p)` (which
must fit the 1-byte count field, so `len(p) < 256`), `send_command`
writes exactly the frame `0x16 ‖ cmd-id (2 bytes, big-endian) ‖ len(p)
‖ p ‖ 0x00 0x00`; the frame has length `6 + len(p)`, its byte at index
3 is `len(p)`, and its last two bytes are zero. -/
theorem send_command_frame_layout (s : SerialPort) (c1 c2 c3 c4 : Nat) (p : List Nat)
    (n_ret : Nat) (h1 : c1 < 16) (h2 : c2 < 16) (h3 : c3 < 16) (h4 : c4 < 16)
    (hp : ∀ b ∈ p, b < 256) (hlen : p.length < 256) :
    send_command (some s) [c1, c2, c3, c4] p.length p n_ret =
      (.ans (s.pending.take n_ret),
       some ⟨s.written ++
               (0x16 :: (16 * c1 + c2) :: (16 * c3 + c4) :: p.length :: (p ++ [0, 0])),
             s.pending.drop n_ret⟩) ∧
    (0x16 :: (16 * c1 + c2) :: (16 * c3 + c4) :: p.length :: (p ++ [0, 0])).length =
      6 + p.length ∧
    (0x16 :: (16 * c1 + c2) :: (16 * c3 + c4) :: p.length :: (p ++ [0, 0]))[3]? =
      some p.length ∧
    (0x16 :: (16 * c1 + c2) :: (16 * c3 + c4) :: p.length :: (p ++ [0, 0])).drop
      (4 + p.length) = [0, 0] := by
  refine ⟨send_command_ok s c1 c2 c3 c4 p.length p n_ret rfl h1 h2 h3 h4 hp hlen, ?_, ?_, ?_⟩
  · simp only [List.length_cons, List.length_append, List.length_nil]
    omega
  · simp
  · have hsplit : 0x16 :: (16 * c1 + c2) :: (16 * c3 + c4) :: p.length :: (p ++ [0, 0]) =
        ([0x16, 16 * c1 + c2, 16 * c3 + c4, p.length] ++ p) ++ [0, 0] := by
      simp
    rw [hsplit, List.drop_left'
      (by simp only [List.length_append, List.length_cons, List.length_nil]; try omega)]

/-- C1 witness: command id `'0101'`, one parameter byte 5, a port with
three pending reply bytes. -/
theorem send_command_frame_layout_witness :
    send_command (some ⟨[], [9, 9, 9]⟩) [0, 1, 0, 1] 1 [5] 3 =
      (.ans [9, 9, 9], some ⟨[0x16, 0x01, 0x01, 1, 5, 0, 0], []⟩) ∧
    ([0x16, 0x01, 0x01, 1, 5, 0, 0] : List Nat).length = 6 + 1 ∧
    ([0x16, 0x01, 0x01, 1, 5, 0, 0] : List Nat)[3]? = some 1 ∧
    ([0x16, 0x01, 0x01, 1, 5, 0, 0] : List Nat).drop (4 + 1) = [0, 0] :=
  send_command_frame_layout ⟨[], [9, 9, 9]⟩ 0 1 0 1 [5] 3 (by decide) (by decide)
    (by decide) (by decide) (by decide) (by decide)

/-- C2: encoding a float32 with `float_to_dec_bytes` and decoding the 4
bytes the way `position_inquiry` does (`struct.unpack('f', ...)`,
little-endian) gives back the same bit pattern. -/
theorem float_roundtrip (v : Float32) (h : v.bits < 2 ^ 32) :
    unpack_f (float_to_dec_bytes v) = some v := by
  rw [float_to_dec_bytes_eq, unpack_f]
  congr 1
  cases v with
  | mk bits =>
    have hb : bits < 2 ^ 32 := h
    simp only [Float32.mk.injEq]
    omega

/-- C2 witness: the bit pattern of `-100.0f` (`0xC2C80000`). -/
theorem float_roundtrip_witness :
    (3267887104 : Nat) < 2 ^ 32 ∧
      unpack_f (float_to_dec_bytes ⟨3267887104⟩) = some ⟨3267887104⟩ :=
  ⟨by decide, float_roundtrip ⟨3267887104⟩ (by decide)⟩

/-- C3 counterexample: a declared count of 1 with zero parameter bytes
makes `send_command` return Python `None` (the `retNone` outcome), not a
raised typed error: the claim that a `LengthMismatch` error is surfaced
rather than a plain `None` return is false. -/
theorem send_command_mismatch_plain_none_cex :
    send_command (some ⟨[], []⟩) [0, 1, 0, 1] 1 [] 10 = (.retNone, some ⟨[], []⟩) := by
  decide

/-- C3 amended: whenever the declared count differs from the actual
parameter byte count, `send_command` returns plain `None` to the caller
(no typed `LengthMismatch` error exists in the code) and transmits
nothing. -/
theorem send_command_mismatch_returns_none (ser : Option SerialPort) (cmd_id : List Nat)
    (n_bytes : Nat) (var_bytes : List Nat) (n_ret : Nat)
    (h : n_bytes ≠ var_bytes.length) :
    (send_command ser cmd_id n_bytes var_bytes n_ret).1 = .retNone := by
  simp [send_command, h]

/-- C3 amended witness: declared 1, actual 0 parameter bytes. -/
theorem send_command_mismatch_returns_none_witness :
    (1 : Nat) ≠ ([] : List Nat).length ∧
      (send_command (some ⟨[], []⟩) [0, 1, 0, 1] 1 [] 10).1 = .retNone :=
  ⟨by decide, send_command_mismatch_returns_none (some ⟨[], []⟩) [0, 1, 0, 1] 1 [] 10
    (by decide)⟩

/-- C4 counterexample: with only 3 pending bytes where 10 are expected,
`send_command` itself succeeds and hands back the 3 bytes (no error),
and `position_inquiry` then raises `struct.error` from
`struct.unpack('f', ans[4:8])` — not a typed `ShortReply` error. -/
theorem short_reply_struct_error_cex :
    (send_command (some ⟨[], [1, 2, 3]⟩) [0, 1, 0, 1] 1 [5] 10).1 = .ans [1, 2, 3] ∧
    position_inquiry (some ⟨[], [1, 2, 3]⟩) 5 =
      (.raised .structError, some ⟨[0x16, 0x01, 0x01, 1, 5, 0, 0], []⟩) := by
  constructor
  · decide
  · decide

/-- C4 amended: when the transport supplies fewer bytes than expected
(`ans[4:8]` shorter than 4 bytes), `position_inquiry` fails by raising
`struct.error` from `unpack` — no partial float is decoded, but the
failure is a raised `struct.error`, not a typed `ShortReply`. -/
theorem short_reply_struct_error (s : SerialPort) (axis : Nat) (haxis : axis < 256)
    (hshort : (s.pending.take 10).length < 8) :
    (position_inquiry (some s) axis).1 = .raised .structError := by
  have hsend := send_command_ok s 0 1 0 1 1 [axis] 10 rfl (by omega) (by omega)
    (by omega) (by omega) (by simpa using haxis) (by omega)
  have hlt : (((s.pending.take 10).drop 4).take 4).length ≠ 4 := by
    simp only [List.length_take, List.length_drop] at hshort ⊢
    omega
  simp only [position_inquiry, hsend]
  rw [unpack_f_of_length_ne hlt]

/-- C4 amended witness: 3 bytes pending where 10 are expected. -/
theorem short_reply_struct_error_witness :
    (5 : Nat) < 256 ∧ ((([1, 2, 3] : List Nat).take 10).length < 8) ∧
      (position_inquiry (some ⟨[], [1, 2, 3]⟩) 5).1 = .raised .structError :=
  ⟨by decide, by decide, short_reply_struct_error ⟨[], [1, 2, 3]⟩ 5 (by decide) (by decide)⟩

/-- C5: every `approach_position` call sends the opcode given by the 2×2
table on `(absolute, slow)`: `(true,false) ↦ 0x0048`, `(true,true) ↦
0x0049`, `(false,false) ↦ 0x004a`, `(false,true) ↦ 0x004b`; the frame
written carries that opcode in its two command-id bytes. -/
theorem approach_position_opcode_table (s : SerialPort) (axis : Nat) (pos : Float32)
    (a sl rev : Bool) (haxis : axis < 256) :
    approach_position (some s) axis pos a sl rev =
      (.ans (s.pending.take 5),
       some ⟨s.written ++
               (0x16 :: pairUp (approach_cmd_id a sl) ++
                 5 :: ((axis :: float_to_dec_bytes (if rev then pos.neg else pos)) ++ [0, 0])),
             s.pending.drop 5⟩) ∧
    pairUp (approach_cmd_id true false) = [0x00, 0x48] ∧
    pairUp (approach_cmd_id true true) = [0x00, 0x49] ∧
    pairUp (approach_cmd_id false false) = [0x00, 0x4a] ∧
    pairUp (approach_cmd_id false true) = [0x00, 0x4b] := by
  have hp : ∀ b ∈ axis :: float_to_dec_bytes (if rev then pos.neg else pos), b < 256 := by
    intro b hb
    rcases List.mem_cons.mp hb with rfl | hb
    · exact haxis
    · exact float_to_dec_bytes_lt _ b hb
  have hlen5 : (5 : Nat) = (axis :: float_to_dec_bytes (if rev then pos.neg else pos)).length := by
    simp [float_to_dec_bytes_eq]
  refine ⟨?_, by decide, by decide, by decide, by decide⟩
  cases a <;> cases sl
  · show send_command (some s) [0, 0, 4, 10] 5
        (axis :: float_to_dec_bytes (if rev then pos.neg else pos)) 5 = _
    rw [send_command_ok s 0 0 4 10 5 _ 5 hlen5 (by decide) (by decide) (by decide)
      (by decide) hp (by decide)]
    rfl
  · show send_command (some s) [0, 0, 4, 11] 5
        (axis :: float_to_dec_bytes (if rev then pos.neg else pos)) 5 = _
    rw [send_command_ok s 0 0 4 11 5 _ 5 hlen5 (by decide) (by decide) (by decide)
      (by decide) hp (by decide)]
    rfl
  · show send_command (some s) [0, 0, 4, 8] 5
        (axis :: float_to_dec_bytes (if rev then pos.neg else pos)) 5 = _
    rw [send_command_ok s 0 0 4 8 5 _ 5 hlen5 (by decide) (by decide) (by decide)
      (by decide) hp (by decide)]
    rfl
  · show send_command (some s) [0, 0, 4, 9] 5
        (axis :: float_to_dec_bytes (if rev then pos.neg else pos)) 5 = _
    rw [send_command_ok s 0 0 4 9 5 _ 5 hlen5 (by decide) (by decide) (by decide)
      (by decide) hp (by decide)]
    rfl

/-- C5 witness: axis 1, position bits 0, `absolute = slow = true`. -/
theorem approach_position_opcode_table_witness :
    approach_position (some ⟨[], []⟩) 1 ⟨0⟩ true true false =
      (.ans [], some ⟨[0x16, 0x00, 0x49, 5, 1, 0, 0, 0, 0, 0, 0], []⟩) ∧
    pairUp (approach_cmd_id true false) = [0x00, 0x48] ∧
    pairUp (approach_cmd_id true true) = [0x00, 0x49] ∧
    pairUp (approach_cmd_id false false) = [0x00, 0x4a] ∧
    pairUp (approach_cmd_id false true) = [0x00, 0x4b] :=
  approach_position_opcode_table ⟨[], []⟩ 1 ⟨0⟩ true true false (by decide)

/-- C6: with `reverse = true` the parameter bytes sent are
`float_to_dec_bytes (-position)` — the sign flip happens on the logical
float before the byte-order transform — so the call coincides with a
non-reversed call on the negated position. -/
theorem approach_position_reverse_negates (ser : Option SerialPort) (axis : Nat)
    (pos : Float32) (a sl : Bool) :
    approach_position ser axis pos a sl true =
      send_command ser (approach_cmd_id a sl) 5 (axis :: float_to_dec_bytes pos.neg) 5 ∧
    approach_position ser axis pos a sl true =
      approach_position ser axis pos.neg a sl false := by
  constructor <;> simp [approach_position]

/-- C7: when the declared count differs from the actual parameter byte
count, `send_command` returns before any serial write: the transport
state (output and pending input) is exactly what it was. -/
theorem send_command_mismatch_atomic (ser : Option SerialPort) (cmd_id : List Nat)
    (n_bytes : Nat) (var_bytes : List Nat) (n_ret : Nat)
    (h : n_bytes ≠ var_bytes.length) :
    (send_command ser cmd_id n_bytes var_bytes n_ret).2 = ser := by
  simp [send_command, h]

/-- C7 witness: declared 1, actual 0 parameter bytes, port untouched. -/
theorem send_command_mismatch_atomic_witness :
    (1 : Nat) ≠ ([] : List Nat).length ∧
      (send_command (some ⟨[7], [8]⟩) [0, 1, 0, 1] 1 [] 10).2 = some ⟨[7], [8]⟩ :=
  ⟨by decide, send_command_mismatch_atomic (some ⟨[7], [8]⟩) [0, 1, 0, 1] 1 [] 10 (by decide)⟩

/-- C8 counterexample: after a failed construction the driver exists
with `connected = false` and `ser = None`, but a subsequent
`send_command` raises `AttributeError` at the `self.ser.write` call —
there is no typed `ConnectionUnavailable` error in the code. -/
theorem disconnected_attribute_error_cex :
    (init 0 false false).connected = false ∧ (init 0 false false).ser = none ∧
    send_command (init 0 false false).ser [0, 1, 0, 1] 1 [5] 10 =
      (.raised .attributeError, none) := by
  decide

/-- C8 amended: construction failure leaves a usable object with
`connected = false` and `ser = None`; every later length-valid
`send_command` on it fails by raising `AttributeError` when it reaches
the write on the `None` serial object (no transport I/O can occur), not
with a `ConnectionUnavailable` check. -/
theorem disconnected_send_attribute_error (v : Nat) (d : Bool) (cmd_id : List Nat)
    (n_bytes : Nat) (var_bytes : List Nat) (n_ret : Nat)
    (hn : n_bytes = var_bytes.length)
    (hhex : (pyUnhexlify (frameDigits cmd_id n_bytes var_bytes)).isSome = true) :
    (init v d false).connected = false ∧ (init v d false).ser = none ∧
    send_command (init v d false).ser cmd_id n_bytes var_bytes n_ret =
      (.raised .attributeError, none) := by
  refine ⟨rfl, rfl, ?_⟩
  obtain ⟨bin, hbin⟩ := Option.isSome_iff_exists.mp hhex
  show send_command none cmd_id n_bytes var_bytes n_ret = _
  rw [send_command, if_neg (by omega), hbin]

/-- C8 amended witness: a concrete length-valid command on a driver
whose construction failed. -/
theorem disconnected_send_attribute_error_witness :
    (1 : Nat) = ([5] : List Nat).length ∧
    (pyUnhexlify (frameDigits [0, 1, 0, 1] 1 [5])).isSome = true ∧
    ((init 0 false false).connected = false ∧ (init 0 false false).ser = none ∧
      send_command (init 0 false false).ser [0, 1, 0, 1] 1 [5] 10 =
        (.raised .attributeError, none)) :=
  ⟨by decide, by decide,
    disconnected_send_attribute_error 0 false [0, 1, 0, 1] 1 [5] 10 (by decide) (by decide)⟩

/-- C9: `float_to_dec_bytes` always returns exactly 4 values, each in
0–255, and they are precisely the big-endian IEEE-754 bytes in reversed
order; hence `approach_position`'s parameter list `axis :: bytes` has
length 5, matching its declared count — its `send_command` can never
take the length-mismatch `None` path. -/
theorem float_to_dec_bytes_invariant (v : Float32) :
    (float_to_dec_bytes v).length = 4 ∧
    (∀ b ∈ float_to_dec_bytes v, b < 256) ∧
    float_to_dec_bytes v = (pack_be_f v).reverse ∧
    (∀ axis : Nat, (axis :: float_to_dec_bytes v).length = 5) ∧
    ∀ ser axis a sl rev, (approach_position ser axis v a sl rev).1 ≠ SendResult.retNone := by
  refine ⟨rfl, float_to_dec_bytes_lt v, ?_, fun axis => rfl, ?_⟩
  · rw [float_to_dec_bytes_eq]
    simp [pack_be_f]
  · intro ser axis a sl rev
    show (send_command ser (approach_cmd_id a sl) 5
        (axis :: float_to_dec_bytes (if rev then Float32.neg v else v)) 5).1 ≠ _
    rw [send_command, if_neg (by simp [float_to_dec_bytes_eq])]
    cases hu : pyUnhexlify (frameDigits (approach_cmd_id a sl) 5
        (axis :: float_to_dec_bytes (if rev then Float32.neg v else v))) with
    | none => simp
    | some bin =>
      cases ser with
      | none => simp
      | some s => simp [serWrite, serRead]

/-- C10 counterexample: at the claim's own example input — element 256,
as in `position_inquiry(256)` — `send_command` does raise an error: the
`'%02x'` expansion of 256 is the three digits `100`, the hex string has
odd length, and `binascii.unhexlify` raises before anything is written.
The claim that no error is raised is false. -/
theorem out_of_range_param_cex :
    send_command (some ⟨[], []⟩) [0, 1, 0, 1] 1 [256] 10 =
      (.raised .binasciiError, some ⟨[], []⟩) ∧
    (position_inquiry (some ⟨[], []⟩) 256).1 = .raised .binasciiError := by
  constructor
  · decide
  · decide

/-- C10 amended: for every parameter list holding one element `x`
outside 0–255 (the rest in range) with a matching declared count,
`send_command` never rejects `x` by validation (the `None` path is
impossible).  When `x`'s `'%02x'` expansion has even length the frame is
transmitted with no error, is strictly longer than `6 + len(var_bytes)`,
and still carries the declared count in its byte at index 3; when the
expansion has odd length `binascii.unhexlify` raises before any write,
leaving the port untouched. -/
theorem out_of_range_param_behavior (s : SerialPort) (c1 c2 c3 c4 : Nat)
    (p1 p2 : List Nat) (x : Nat) (n_ret : Nat)
    (h1 : c1 < 16) (h2 : c2 < 16) (h3 : c3 < 16) (h4 : c4 < 16)
    (hp1 : ∀ b ∈ p1, b < 256) (hp2 : ∀ b ∈ p2, b < 256)
    (hx : 256 ≤ x) (hn : (p1 ++ x :: p2).length < 256) :
    (∀ ser, (send_command ser [c1, c2, c3, c4] (p1 ++ x :: p2).length (p1 ++ x :: p2)
        n_ret).1 ≠ SendResult.retNone) ∧
    ((fmt02x x).length % 2 = 0 →
      send_command (some s) [c1, c2, c3, c4] (p1 ++ x :: p2).length (p1 ++ x :: p2) n_ret =
        (.ans (s.pending.take n_ret),
         some ⟨s.written ++
                 pairUp (frameDigits [c1, c2, c3, c4] (p1 ++ x :: p2).length (p1 ++ x :: p2)),
               s.pending.drop n_ret⟩) ∧
      6 + (p1 ++ x :: p2).length <
        (pairUp (frameDigits [c1, c2, c3, c4] (p1 ++ x :: p2).length (p1 ++ x :: p2))).length ∧
      (pairUp (frameDigits [c1, c2, c3, c4] (p1 ++ x :: p2).length (p1 ++ x :: p2)))[3]? =
        some (p1 ++ x :: p2).length) ∧
    ((fmt02x x).length % 2 = 1 →
      send_command (some s) [c1, c2, c3, c4] (p1 ++ x :: p2).length (p1 ++ x :: p2) n_ret =
        (.raised .binasciiError, some s)) := by
  have hfxlen : 3 ≤ (fmt02x x).length := by
    rw [fmt02x_of_ge x hx]
    exact hexStr_length_ge3 x hx
  have hfmtn : fmt02x (p1 ++ x :: p2).length =
      [(p1 ++ x :: p2).length / 16, (p1 ++ x :: p2).length % 16] := fmt02x_of_lt _ hn
  have hnval : (p1 ++ x :: p2).length = p1.length + p2.length + 1 := by
    simp only [List.length_append, List.length_cons]
    omega
  have hshape : frameDigits [c1, c2, c3, c4] (p1 ++ x :: p2).length (p1 ++ x :: p2) =
      [1, 6, c1, c2, c3, c4, (p1 ++ x :: p2).length / 16, (p1 ++ x :: p2).length % 16] ++
        (p1.flatMap fmt02x ++ (fmt02x x ++ (p2.flatMap fmt02x ++ [0, 0, 0, 0]))) := by
    simp only [frameDigits, SYNdigits, hfmtn, List.flatMap_append, List.flatMap_cons,
      List.append_assoc, List.cons_append, List.nil_append]
  have hdlen : (frameDigits [c1, c2, c3, c4] (p1 ++ x :: p2).length (p1 ++ x :: p2)).length =
      12 + (2 * p1.length + (fmt02x x).length + 2 * p2.length) := by
    rw [hshape]
    simp only [List.length_append, List.length_cons, List.length_nil,
      flatMap_fmt02x_length p1 hp1, flatMap_fmt02x_length p2 hp2]
    omega
  refine ⟨?_, ?_, ?_⟩
  · intro ser
    rw [send_command, if_neg (by omega)]
    cases hu : pyUnhexlify (frameDigits [c1, c2, c3, c4] (p1 ++ x :: p2).length
        (p1 ++ x :: p2)) with
    | none => simp
    | some bin =>
      cases ser with
      | none => simp
      | some s2 => simp [serWrite, serRead]
  · intro heven
    have hall : ∀ d ∈ frameDigits [c1, c2, c3, c4] (p1 ++ x :: p2).length (p1 ++ x :: p2),
        d < 16 := by
      intro d hd
      rw [hshape] at hd
      rcases List.mem_append.mp hd with hd | hd
      · simp only [List.mem_cons, List.not_mem_nil, or_false] at hd
        rcases hd with rfl | rfl | rfl | rfl | rfl | rfl | rfl | rfl <;> omega
      · rcases List.mem_append.mp hd with hd | hd
        · exact flatMap_fmt02x_digits_lt p1 hp1 d hd
        · rcases List.mem_append.mp hd with hd | hd
          · exact fmt02x_digit_lt_all x d hd
          · rcases List.mem_append.mp hd with hd | hd
            · exact flatMap_fmt02x_digits_lt p2 hp2 d hd
            · have hd0 : d = 0 := by simpa using hd
              omega
    have heven' : (frameDigits [c1, c2, c3, c4] (p1 ++ x :: p2).length
        (p1 ++ x :: p2)).length % 2 = 0 := by omega
    have hunhex : pyUnhexlify (frameDigits [c1, c2, c3, c4] (p1 ++ x :: p2).length
          (p1 ++ x :: p2)) =
        some (pairUp (frameDigits [c1, c2, c3, c4] (p1 ++ x :: p2).length (p1 ++ x :: p2))) := by
      rw [pyUnhexlify,
        if_pos ⟨heven', List.all_eq_true.mpr fun d hd => decide_eq_true (hall d hd)⟩]
    refine ⟨?_, ?_, ?_⟩
    · rw [send_command, if_neg (by omega), hunhex]
      simp [serWrite, serRead]
    · rw [pairUp_length, hdlen, hnval]
      omega
    · have hdm : 16 * ((p1 ++ x :: p2).length / 16) + (p1 ++ x :: p2).length % 16 =
          (p1 ++ x :: p2).length := by omega
      have hps : pairUp (frameDigits [c1, c2, c3, c4] (p1 ++ x :: p2).length
            (p1 ++ x :: p2)) =
          22 :: (16 * c1 + c2) :: (16 * c3 + c4) :: (p1 ++ x :: p2).length ::
            pairUp (p1.flatMap fmt02x ++ (fmt02x x ++ (p2.flatMap fmt02x ++ [0, 0, 0, 0]))) := by
        rw [hshape]
        simp only [List.cons_append, List.nil_append, pairUp]
        rw [hdm]
        norm_num
      rw [hps]
      simp
  · intro hodd
    have hbad : ¬((frameDigits [c1, c2, c3, c4] (p1 ++ x :: p2).length
          (p1 ++ x :: p2)).length % 2 = 0 ∧
        (frameDigits [c1, c2, c3, c4] (p1 ++ x :: p2).length
          (p1 ++ x :: p2)).all (· < 16) = true) := by
      rintro ⟨he, -⟩
      omega
    rw [send_command, if_neg (by omega), pyUnhexlify, if_neg hbad]

/-- C10 amended witness: the single out-of-range element 4096, whose
expansion `1000` has even length: the frame goes out 8 bytes long where
`6 + len(var_bytes)` is 7, with count byte 1. -/
theorem out_of_range_param_behavior_witness :
    (∀ ser, (send_command ser [0, 1, 0, 1] 1 [4096] 10).1 ≠ SendResult.retNone) ∧
    ((fmt02x 4096).length % 2 = 0 →
      send_command (some ⟨[], []⟩) [0, 1, 0, 1] 1 [4096] 10 =
        (.ans [], some ⟨pairUp (frameDigits [0, 1, 0, 1] 1 [4096]), []⟩) ∧
      6 + 1 < (pairUp (frameDigits [0, 1, 0, 1] 1 [4096])).length ∧
      (pairUp (frameDigits [0, 1, 0, 1] 1 [4096]))[3]? = some 1) ∧
    ((fmt02x 4096).length % 2 = 1 →
      send_command (some ⟨[], []⟩) [0, 1, 0, 1] 1 [4096] 10 =
        (.raised .binasciiError, some ⟨[], []⟩)) :=
  out_of_range_param_behavior ⟨[], []⟩ 0 1 0 1 [] [] 4096 10 (by decide) (by decide)
    (by decide) (by decide) (by decide) (by decide) (by decide) (by decide)

end SM10
